import Mathlib

/-!
Verification of `src/dask/diagnostics/profile.py` (the task-level `Profiler`
callback class) against its natural-language specification.

The embedding is shallow:

* Python values stored by the profiler (task keys, task payloads, timestamps,
  worker ids) are all opaque to the profiler, so they are modelled uniformly
  as `Nat`.
* A Python `dict` is modelled as an insertion-ordered association list
  (`List (Nat × α)`): assignment to an existing key replaces the value in
  place, assignment to a fresh key appends at the end, matching CPython's
  iteration-order guarantee.
* A Python tuple held in `self._results` is modelled as `List Nat`; the
  `+=` tuple extension in `_posttask` is list append.
* `default_timer()` is nondeterministic input, so each timestamped callback
  takes the observed clock value `now` as an explicit argument.
* A callback that raises an exception is modelled as returning `none`
  (`Option ProfState`); in Python the exception propagates before any state
  mutation of the profiler happens, so `none` means "raised, state unchanged".
-/

set_option autoImplicit false

namespace DaskProfile

/-- Ordered association-list lookup, modelling Python `d[k]` /
`KeyError` as `Option`: `dictGet d k = some v` iff the first entry with key
`k` holds `v`. -/
def dictGet {α : Type} : List (Nat × α) → Nat → Option α
  | [], _ => none
  | p :: rest, k => if p.1 = k then some p.2 else dictGet rest k

/-- Ordered association-list assignment, modelling Python `d[k] = v`:
replaces the value at the first entry with key `k` keeping its position,
or appends `(k, v)` when `k` is absent. -/
def dictSet {α : Type} : List (Nat × α) → Nat → α → List (Nat × α)
  | [], k, v => [(k, v)]
  | p :: rest, k, v => if p.1 = k then (k, v) :: rest else p :: dictSet rest k v

/-- The mutable state of one `Profiler` instance.

* `results`  — `self.results`, the Accumulated Log.  Each element is the raw
  `TaskData` tuple `[key, task, start_time, end_time, worker_id]`; keeping
  the raw tuple (rather than a fixed 5-field structure) lets field-count
  claims be stated non-trivially.
* `pending`  — `self._results`, the Pending-Event Table, a dict from key to
  the partially built tuple.
* `dsk`      — `self._dsk`, the Graph Snapshot. -/
structure ProfState where
  results : List (List Nat)
  pending : List (Nat × List Nat)
  dsk : List (Nat × Nat)
  deriving Repr, DecidableEq

/-- Embeds `Profiler.__init__`: empty log, empty pending table, empty snapshot. -/
def initState : ProfState := ⟨[], [], []⟩

/-- Embeds `Profiler.clear`: `self._results.clear(); del self.results[:];
self._dsk = \x7b\x7d`. -/
def clear (_s : ProfState) : ProfState := ⟨[], [], []⟩

/-- Modelled from the spec: `Callback.__enter__` (in `dask/callbacks.py`,
not part of the provided sources) registers the callback hooks with the
engine — it "begins observing" — and does not touch `results`, `_results`
or `_dsk`, so on the data state it is the identity. -/
def callbackEnter (s : ProfState) : ProfState := s

/-- Embeds `Profiler.__enter__`: `self.clear()` then
`super(Profiler, self).__enter__()`. -/
def enter (s : ProfState) : ProfState := callbackEnter (clear s)

/-- Embeds `Profiler._start(dsk)`: `self._dsk = dsk.copy()`.  The `.copy()` is a
defensive copy, so in this pure embedding the snapshot simply holds the
value of `dsk` at call time. -/
def start (dsk : List (Nat × Nat)) (s : ProfState) : ProfState :=
  { s with dsk := dsk }

/-- Embeds `Profiler._pretask(key, dsk, state)`:
`start = default_timer(); self._results[key] = (key, dsk[key], start)`.
`dsk[key]` raises `KeyError` when `key` is absent from `dsk` (→ `none`);
the `state` argument is unused by the source.  `now` is the observed
`default_timer()` value. -/
def pretask (key : Nat) (dsk : List (Nat × Nat)) (now : Nat) (s : ProfState) :
    Option ProfState :=
  match dictGet dsk key with
  | none => none
  | some task => some { s with pending := dictSet s.pending key [key, task, now] }

/-- Embeds `Profiler._posttask(key, value, dsk, state, id)`:
`end = default_timer(); self._results[key] += (end, id)`.
The augmented assignment first reads `self._results[key]`, which raises
`KeyError` when no pending entry exists (→ `none`); `value`, `dsk` and
`state` are unused by the source.  `now` is the observed `default_timer()`
value and `id` the worker id. -/
def posttask (key _value : Nat) (_dsk : List (Nat × Nat)) (id : Nat)
    (now : Nat) (s : ProfState) : Option ProfState :=
  match dictGet s.pending key with
  | none => none
  | some tup => some { s with pending := dictSet s.pending key (tup ++ [now, id]) }

/-- Embeds `Profiler._finish(dsk, state, failed)`:
`results = dict((k, v) for k, v in self._results.items() if len(v) == 5);
self.results += list(starmap(TaskData, results.values()));
self._results.clear()`.
Only pending tuples with exactly 5 components become `TaskData` records,
appended in table iteration order; the pending table is then emptied.
`dsk`, `state` and `failed` are unused by the source. -/
def finish (_dsk : List (Nat × Nat)) (_failed : Bool) (s : ProfState) : ProfState :=
  { s with
    results := s.results ++ (s.pending.filter (fun p => p.2.length == 5)).map Prod.snd,
    pending := [] }

/-- Reading `prof.results`: the Accumulated Log.  (`self.results` is the
instance attribute set in `__init__`; the class-level `results` method is
shadowed by it and unreachable.) -/
def getResults (s : ProfState) : List (List Nat) := s.results

/-- One engine-issued callback, with the nondeterministic clock value
inlined into the event. -/
inductive Ev where
  | evEnter : Ev
  | evStart (dsk : List (Nat × Nat)) : Ev
  | evPre (key : Nat) (dsk : List (Nat × Nat)) (now : Nat) : Ev
  | evPost (key value : Nat) (dsk : List (Nat × Nat)) (id now : Nat) : Ev
  | evFinish (dsk : List (Nat × Nat)) (failed : Bool) : Ev
  | evClear : Ev
  deriving Repr, DecidableEq

/-- Apply one callback to the state; `none` models a raised exception
(state unchanged, since the raise happens before any mutation). -/
def stepEv : Ev → ProfState → Option ProfState
  | Ev.evEnter, s => some (enter s)
  | Ev.evStart dsk, s => some (start dsk s)
  | Ev.evPre key dsk now, s => pretask key dsk now s
  | Ev.evPost key value dsk id now, s => posttask key value dsk id now s
  | Ev.evFinish dsk failed, s => some (finish dsk failed s)
  | Ev.evClear, s => some (clear s)

/-- Number of records in a log whose `key` field (first tuple component)
is `k`. -/
def countKey (k : Nat) (log : List (List Nat)) : Nat :=
  (log.filter (fun r => r.head? == some k)).length

/-- Well-formedness of a Pending-Event Table: every entry's tuple starts
with its own dict key (as written by `_pretask` and preserved by
`_posttask`), and dict keys are not duplicated (a Python dict cannot hold
duplicate keys). -/
def WFtable (l : List (Nat × List Nat)) : Prop :=
  (∀ p ∈ l, p.2.head? = some p.1) ∧ (l.map Prod.fst).Nodup

theorem dictGet_dictSet_self {α : Type} (d : List (Nat × α)) (k : Nat) (v : α) :
    dictGet (dictSet d k v) k = some v := by
  induction d with
  | nil => simp [dictGet, dictSet]
  | cons p rest ih =>
    by_cases h : p.1 = k
    · simp [dictSet, dictGet, h]
    · simp [dictSet, dictGet, h, ih]

theorem mem_dictSet {α : Type} {d : List (Nat × α)} {k : Nat} {v : α} {p : Nat × α}
    (h : p ∈ dictSet d k v) : p = (k, v) ∨ p ∈ d := by
  induction d with
  | nil => simpa [dictSet] using h
  | cons q rest ih =>
    by_cases hq : q.1 = k
    · simp only [dictSet, if_pos hq, List.mem_cons] at h
      rcases h with h | h
      · exact Or.inl h
      · exact Or.inr (List.mem_cons_of_mem _ h)
    · simp only [dictSet, if_neg hq, List.mem_cons] at h
      rcases h with h | h
      · exact Or.inr (h ▸ List.mem_cons_self _ _)
      · rcases ih h with h | h
        · exact Or.inl h
        · exact Or.inr (List.mem_cons_of_mem _ h)

theorem map_fst_dictSet {α : Type} (d : List (Nat × α)) (k : Nat) (v : α) :
    (dictSet d k v).map Prod.fst =
      if k ∈ d.map Prod.fst then d.map Prod.fst else d.map Prod.fst ++ [k] := by
  induction d with
  | nil => simp [dictSet]
  | cons p rest ih =>
    by_cases hp : p.1 = k
    · simp [dictSet, hp]
    · have hk : (k ∈ p.1 :: rest.map Prod.fst) ↔ k ∈ rest.map Prod.fst := by
        constructor
        · intro h
          rcases List.mem_cons.mp h with h | h
          · exact absurd h.symm hp
          · exact h
        · exact List.mem_cons_of_mem _
      by_cases hr : k ∈ rest.map Prod.fst
      · simp [dictSet, hp, ih, hr, hk]
      · simp [dictSet, hp, ih, hr, hk]

theorem nodup_dictSet {α : Type} {d : List (Nat × α)} (k : Nat) (v : α)
    (h : (d.map Prod.fst).Nodup) : ((dictSet d k v).map Prod.fst).Nodup := by
  rw [map_fst_dictSet]
  by_cases hk : k ∈ d.map Prod.fst
  · simpa [hk] using h
  · simp only [hk, if_false]
    exact List.Nodup.append h (List.nodup_singleton k)
      (by simpa [List.disjoint_singleton] using hk)

theorem wftable_dictSet {d : List (Nat × List Nat)} {k : Nat} {tup : List Nat}
    (hWF : WFtable d) (htup : tup.head? = some k) :
    WFtable (dictSet d k tup) := by
  refine ⟨fun p hp => ?_, nodup_dictSet k tup hWF.2⟩
  rcases mem_dictSet hp with h | h
  · subst h; exact htup
  · exact hWF.1 p h

theorem dictGet_eq_none_of_not_mem {α : Type} {d : List (Nat × α)} {k : Nat}
    (h : k ∉ d.map Prod.fst) : dictGet d k = none := by
  induction d with
  | nil => rfl
  | cons p rest ih =>
    have hp : p.1 ≠ k := fun he => h (by simp [he])
    have hr : k ∉ rest.map Prod.fst := fun hm => h (by simp [hm])
    simp [dictGet, hp, ih hr]

/-- Records appended by `_finish` that carry key `k`: exactly the pending
tuple for `k` when it has length 5, and nothing otherwise (in a
well-formed table). -/
theorem recordsFor (l : List (Nat × List Nat)) (k : Nat)
    (h1 : ∀ p ∈ l, p.2.head? = some p.1) (h2 : (l.map Prod.fst).Nodup) :
    ((l.filter (fun p => p.2.length == 5)).map Prod.snd).filter
        (fun r => r.head? == some k) =
      match dictGet l k with
      | none => []
      | some tup => if tup.length = 5 then [tup] else [] := by
  induction l with
  | nil => simp [dictGet]
  | cons p rest ih =>
    have h1p := h1 p (List.mem_cons_self _ _)
    have h1r : ∀ q ∈ rest, q.2.head? = some q.1 :=
      fun q hq => h1 q (List.mem_cons_of_mem _ hq)
    have h2' : p.1 ∉ rest.map Prod.fst ∧ (rest.map Prod.fst).Nodup := by
      rw [List.map_cons, List.nodup_cons] at h2
      exact h2
    have ihr := ih h1r h2'.2
    by_cases hk : p.1 = k
    · subst hk
      have hnone : dictGet rest p.1 = none := dictGet_eq_none_of_not_mem h2'.1
      have hhead : (p.2.head? == some p.1) = true := by rw [h1p]; simp
      by_cases h5 : p.2.length = 5
      · have h5b : (p.2.length == 5) = true := by simpa using h5
        simp [dictGet, List.filter_cons, h5b, hhead, ihr, hnone, h5]
      · have h5b : (p.2.length == 5) = false := by simpa using h5
        simp [dictGet, List.filter_cons, h5b, ihr, hnone, h5]
    · have hhead : (p.2.head? == some k) = false := by
        rw [h1p]; simpa using hk
      by_cases h5 : p.2.length = 5
      · have h5b : (p.2.length == 5) = true := by simpa using h5
        simp [dictGet, List.filter_cons, h5b, hhead, hk, ihr]
      · have h5b : (p.2.length == 5) = false := by simpa using h5
        simp [dictGet, List.filter_cons, h5b, hk, ihr]

/-- In a table with no duplicate keys, the entries for key `k` are exactly
the one found by lookup. -/
theorem filter_key_unique {d : List (Nat × List Nat)} {k : Nat} {v : List Nat}
    (hnd : (d.map Prod.fst).Nodup) (hget : dictGet d k = some v) :
    d.filter (fun p => p.1 == k) = [(k, v)] := by
  induction d with
  | nil => simp [dictGet] at hget
  | cons p rest ih =>
    obtain ⟨a, b⟩ := p
    have h2' : a ∉ rest.map Prod.fst ∧ (rest.map Prod.fst).Nodup := by
      rw [List.map_cons, List.nodup_cons] at hnd
      exact hnd
    by_cases hk : a = k
    · subst hk
      have hb : b = v := by simpa [dictGet] using hget
      subst hb
      have hrest : rest.filter (fun q => q.1 == a) = [] := by
        rw [List.filter_eq_nil_iff]
        intro q hq
        simp only [beq_iff_eq]
        intro hqe
        exact h2'.1 (hqe ▸ List.mem_map_of_mem Prod.fst hq)
      simp [List.filter_cons, hrest]
    · have hget' : dictGet rest k = some v := by simpa [dictGet, hk] using hget
      have hab : ((a, b).1 == k) = false := by simpa using hk
      simp [List.filter_cons, hab, ih h2'.2 hget']

/-- C1, as stated, is false on the code: calling `_posttask` for a key with
no pending entry is not a no-op — `self._results[key] += (end, id)` reads
`self._results[key]` first, which raises `KeyError`.  Concretely, on the
freshly constructed profiler (empty pending table) `_posttask` for key `0`
raises (`none` in the embedding) rather than returning unchanged state. -/
theorem C1_counterexample :
    dictGet initState.pending 0 = none ∧
    posttask 0 0 [] 0 1 initState ≠ some initState ∧
    posttask 0 0 [] 0 1 initState = none := by
  refine ⟨rfl, ?_, rfl⟩
  intro h
  simp [posttask, initState, dictGet] at h

/-- C1 (amended): if `_posttask` is called for a key with no pending entry
in the Pending-Event Table, the call raises `KeyError` (modelled as `none`)
before performing any mutation, so no Event Record for that key is produced
by the call; it is not the silent no-op the spec describes. -/
theorem C1_missing_start_raises (k v w t : Nat) (g : List (Nat × Nat))
    (s : ProfState) (h : dictGet s.pending k = none) :
    posttask k v g w t s = none := by
  simp [posttask, h]

/-- Witness for C1 (amended) at the freshly constructed profiler. -/
theorem C1_missing_start_raises_witness :
    dictGet initState.pending 0 = none ∧ posttask 0 0 [] 0 1 initState = none :=
  ⟨rfl, C1_missing_start_raises 0 0 0 1 [] initState rfl⟩

/-- C2: for a key `k` on which the engine calls `_pretask(k, g)` at time
`t1` and then `_posttask(k, v, g, w)` at time `t2` before `_finish`, the
Accumulated Log after `_finish` contains exactly one Event Record with key
`k`, namely `[k, g[k], t1, t2, w]` — its `task` field is `g[k]` and its
`worker_id` field is `w`. -/
theorem C2_start_finish_one_record (k task v w t1 t2 : Nat) (f : Bool)
    (g : List (Nat × Nat)) (s : ProfState)
    (hWF : WFtable s.pending)
    (hg : dictGet g k = some task)
    (h0 : s.results.filter (fun r => r.head? == some k) = []) :
    ∃ s1 s2, pretask k g t1 s = some s1 ∧ posttask k v g w t2 s1 = some s2 ∧
      (finish g f s2).results.filter (fun r => r.head? == some k)
        = [[k, task, t1, t2, w]] ∧
      countKey k (finish g f s2).results = 1 := by
  have hWF2 : WFtable
      (dictSet (dictSet s.pending k [k, task, t1]) k [k, task, t1, t2, w]) :=
    wftable_dictSet (wftable_dictSet hWF rfl) rfl
  have hrec := recordsFor
    (dictSet (dictSet s.pending k [k, task, t1]) k [k, task, t1, t2, w]) k
    hWF2.1 hWF2.2
  rw [dictGet_dictSet_self] at hrec
  simp only [List.length_cons, List.length_nil] at hrec
  have hfilter : (finish g f { s with pending :=
      (dictSet (dictSet s.pending k [k, task, t1]) k
        [k, task, t1, t2, w]) }).results.filter (fun r => r.head? == some k)
      = [[k, task, t1, t2, w]] := by
    simp only [finish, List.filter_append, hrec, h0]
    simp
  refine ⟨{ s with pending := dictSet s.pending k [k, task, t1] },
    { s with pending :=
        (dictSet (dictSet s.pending k [k, task, t1]) k [k, task, t1, t2, w]) },
    by simp [pretask, hg], by simp [posttask, dictGet_dictSet_self],
    hfilter, ?_⟩
  simp only [countKey, hfilter]
  rfl

/-- Witness for C2 on the graph `[(3, 7)]` with key `3`, worker `9`,
times `1` and `2`, starting from the fresh profiler. -/
theorem C2_start_finish_one_record_witness :
    WFtable initState.pending ∧ dictGet [(3, 7)] 3 = some 7 ∧
    initState.results.filter (fun r => r.head? == some 3) = [] ∧
    ∃ s1 s2, pretask 3 [(3, 7)] 1 initState = some s1 ∧
      posttask 3 0 [(3, 7)] 9 2 s1 = some s2 ∧
      (finish [(3, 7)] false s2).results.filter (fun r => r.head? == some 3)
        = [[3, 7, 1, 2, 9]] ∧
      countKey 3 (finish [(3, 7)] false s2).results = 1 :=
  ⟨⟨fun p hp => absurd hp (List.not_mem_nil p), List.nodup_nil⟩, rfl, rfl,
    C2_start_finish_one_record 3 7 0 9 1 2 false [(3, 7)] initState
      ⟨fun p hp => absurd hp (List.not_mem_nil p), List.nodup_nil⟩ rfl rfl⟩

/-- C3: every record in the Accumulated Log has exactly 5 populated fields,
an invariant preserved by every callback (`stepEv`); moreover `_finish`
empties the Pending-Event Table, and a pending entry whose tuple does not
have 5 components (e.g. started but never finished, so 3 components)
contributes no Event Record for its key. -/
theorem C3_five_fields_invariant (e : Ev) (s s' : ProfState)
    (g : List (Nat × Nat)) (f : Bool) (k : Nat) (tup : List Nat) :
    ((∀ r ∈ s.results, r.length = 5) → stepEv e s = some s' →
        ∀ r ∈ s'.results, r.length = 5)
    ∧ (finish g f s).pending = []
    ∧ (WFtable s.pending → dictGet s.pending k = some tup → tup.length ≠ 5 →
        (finish g f s).results.filter (fun r => r.head? == some k)
          = s.results.filter (fun r => r.head? == some k)) := by
  refine ⟨?_, rfl, ?_⟩
  · intro hinv hstep
    cases e with
    | evEnter =>
      simp only [stepEv, Option.some.injEq] at hstep
      subst hstep
      simp [enter, callbackEnter, clear]
    | evStart dsk =>
      simp only [stepEv, Option.some.injEq] at hstep
      subst hstep
      simpa [start] using hinv
    | evPre key dsk now =>
      simp only [stepEv, pretask] at hstep
      split at hstep
      · exact absurd hstep (by simp)
      · rw [Option.some.injEq] at hstep
        subst hstep
        simpa using hinv
    | evPost key value dsk id now =>
      simp only [stepEv, posttask] at hstep
      split at hstep
      · exact absurd hstep (by simp)
      · rw [Option.some.injEq] at hstep
        subst hstep
        simpa using hinv
    | evFinish dsk failed =>
      simp only [stepEv, Option.some.injEq] at hstep
      subst hstep
      intro r hr
      simp only [finish, List.mem_append] at hr
      rcases hr with hr | hr
      · exact hinv r hr
      · simp only [List.mem_map, List.mem_filter] at hr
        obtain ⟨p, ⟨_, hlen⟩, hpr⟩ := hr
        rw [← hpr]
        simpa using hlen
    | evClear =>
      simp only [stepEv, Option.some.injEq] at hstep
      subst hstep
      simp [clear]
  · intro hWF hget hlen
    have hrec := recordsFor s.pending k hWF.1 hWF.2
    rw [hget] at hrec
    simp only [finish, List.filter_append, hrec, if_neg hlen]
    simp

/-- Witness for C3 at a table holding the started-but-unfinished entry
`(1, [1, 2, 3])`: `_finish` keeps the invariant, empties the table and
appends no record for key `1`. -/
theorem C3_five_fields_invariant_witness :
    (∀ r ∈ (finish [] false (ProfState.mk [] [(1, [1, 2, 3])] [])).results,
        r.length = 5)
    ∧ (finish [] false (ProfState.mk [] [(1, [1, 2, 3])] [])).pending = []
    ∧ (finish [] false (ProfState.mk [] [(1, [1, 2, 3])] [])).results.filter
        (fun r => r.head? == some 1)
      = (ProfState.mk [] [(1, [1, 2, 3])] []).results.filter
        (fun r => r.head? == some 1) :=
  have h := C3_five_fields_invariant (Ev.evFinish [] false)
    (ProfState.mk [] [(1, [1, 2, 3])] [])
    (finish [] false (ProfState.mk [] [(1, [1, 2, 3])] [])) [] false 1 [1, 2, 3]
  ⟨h.1 (by simp) rfl, h.2.1,
    h.2.2 ⟨by simp, by simp⟩ rfl (by simp)⟩

/-- C4: `clear` empties the Accumulated Log, the Pending-Event Table and
the Graph Snapshot, so `clear` followed by reading `results` yields the
empty sequence — for every reachable profiler state. -/
theorem C4_clear_empties (s : ProfState) :
    (clear s).results = [] ∧ (clear s).pending = [] ∧ (clear s).dsk = [] ∧
    getResults (clear s) = [] :=
  ⟨rfl, rfl, rfl, rfl⟩

/-- C5: scope entry `__enter__` has the same effect on the profiler's data
state as `clear` (it calls `self.clear()`, and the inherited
`Callback.__enter__` only registers the hooks), so re-entering the scoped
session discards all results of the previous session. -/
theorem C5_enter_equals_clear (s : ProfState) :
    enter s = clear s ∧ getResults (enter s) = [] ∧
    (enter s).pending = [] ∧ (enter s).dsk = [] :=
  ⟨rfl, rfl, rfl, rfl⟩

/-- C6: calling `_pretask` twice for the same key before a matching
`_posttask` raises nothing and leaves exactly one pending entry for the
key, holding the second call's timestamp and payload (last-start-wins). -/
theorem C6_duplicate_start_overwrites (k t1 t2 task1 task2 : Nat)
    (g1 g2 : List (Nat × Nat)) (s : ProfState)
    (hWF : WFtable s.pending)
    (hg1 : dictGet g1 k = some task1) (hg2 : dictGet g2 k = some task2) :
    ∃ s1 s2, pretask k g1 t1 s = some s1 ∧ pretask k g2 t2 s1 = some s2 ∧
      dictGet s2.pending k = some [k, task2, t2] ∧
      s2.pending.filter (fun p => p.1 == k) = [(k, [k, task2, t2])] := by
  refine ⟨{ s with pending := dictSet s.pending k [k, task1, t1] },
    { s with pending :=
        (dictSet (dictSet s.pending k [k, task1, t1]) k [k, task2, t2]) },
    by simp [pretask, hg1], by simp [pretask, hg2], dictGet_dictSet_self _ _ _, ?_⟩
  have hWF2 : WFtable
      (dictSet (dictSet s.pending k [k, task1, t1]) k [k, task2, t2]) :=
    wftable_dictSet (wftable_dictSet hWF rfl) rfl
  exact filter_key_unique hWF2.2 (dictGet_dictSet_self _ _ _)

/-- Witness for C6 on the graph `[(0, 7)]` with key `0`, from the fresh
profiler. -/
theorem C6_duplicate_start_overwrites_witness :
    WFtable initState.pending ∧ dictGet [(0, 7)] 0 = some 7 ∧
    ∃ s1 s2, pretask 0 [(0, 7)] 1 initState = some s1 ∧
      pretask 0 [(0, 7)] 2 s1 = some s2 ∧
      dictGet s2.pending 0 = some [0, 7, 2] ∧
      s2.pending.filter (fun p => p.1 == 0) = [(0, [0, 7, 2])] :=
  ⟨⟨fun p hp => absurd hp (List.not_mem_nil p), List.nodup_nil⟩, rfl,
    C6_duplicate_start_overwrites 0 1 2 7 7 [(0, 7)] [(0, 7)] initState
      ⟨fun p hp => absurd hp (List.not_mem_nil p), List.nodup_nil⟩ rfl rfl⟩

/-- C7: `_finish` ignores its `failed` argument — running it with any two
values of `failed` from the same state yields identical Accumulated Log,
Pending-Event Table and Graph Snapshot (two-run noninterference). -/
theorem C7_failed_noninterference (g : List (Nat × Nat)) (f1 f2 : Bool)
    (s : ProfState) :
    finish g f1 s = finish g f2 s := rfl

/-- C8: `_start` replaces the Graph Snapshot with the supplied graph's
value at call time (the `.copy()` gives it value semantics, so later caller
mutations cannot affect it) and leaves the Accumulated Log and the
Pending-Event Table unchanged. -/
theorem C8_start_frame (g : List (Nat × Nat)) (s : ProfState) :
    (start g s).dsk = g ∧ (start g s).results = s.results ∧
    (start g s).pending = s.pending :=
  ⟨rfl, rfl, rfl⟩

/-- C10: a second `_posttask` for the same key (after one `_pretask` and
before `_finish`) extends the pending tuple to 7 components, so the
exactly-5-fields filter in `_finish` rejects it and the doubly-finished
key produces no Event Record at all — it is silently lost. -/
theorem C10_double_finish_drops_key (k task v1 v2 w1 w2 t1 t2 t3 : Nat)
    (f : Bool) (g : List (Nat × Nat)) (s : ProfState)
    (hWF : WFtable s.pending) (hg : dictGet g k = some task) :
    ∃ s1 s2 s3, pretask k g t1 s = some s1 ∧
      posttask k v1 g w1 t2 s1 = some s2 ∧
      posttask k v2 g w2 t3 s2 = some s3 ∧
      dictGet s3.pending k = some [k, task, t1, t2, w1, t3, w2] ∧
      ([k, task, t1, t2, w1, t3, w2] : List Nat).length = 7 ∧
      (finish g f s3).results.filter (fun r => r.head? == some k)
        = s.results.filter (fun r => r.head? == some k) := by
  have hWF3 : WFtable
      (dictSet (dictSet (dictSet s.pending k [k, task, t1]) k
        [k, task, t1, t2, w1]) k [k, task, t1, t2, w1, t3, w2]) :=
    wftable_dictSet (wftable_dictSet (wftable_dictSet hWF rfl) rfl) rfl
  have hrec := recordsFor
    (dictSet (dictSet (dictSet s.pending k [k, task, t1]) k
      [k, task, t1, t2, w1]) k [k, task, t1, t2, w1, t3, w2]) k
    hWF3.1 hWF3.2
  rw [dictGet_dictSet_self] at hrec
  simp only [List.length_cons, List.length_nil] at hrec
  refine ⟨{ s with pending := dictSet s.pending k [k, task, t1] },
    { s with pending :=
        (dictSet (dictSet s.pending k [k, task, t1]) k [k, task, t1, t2, w1]) },
    { s with pending :=
        (dictSet (dictSet (dictSet s.pending k [k, task, t1]) k
          [k, task, t1, t2, w1]) k [k, task, t1, t2, w1, t3, w2]) },
    by simp [pretask, hg], by simp [posttask, dictGet_dictSet_self],
    by simp [posttask, dictGet_dictSet_self], dictGet_dictSet_self _ _ _,
    rfl, ?_⟩
  simp only [finish, List.filter_append, hrec]
  simp

/-- Witness for C10 on the graph `[(0, 7)]` with key `0`, from the fresh
profiler. -/
theorem C10_double_finish_drops_key_witness :
    WFtable initState.pending ∧ dictGet [(0, 7)] 0 = some 7 ∧
    ∃ s1 s2 s3, pretask 0 [(0, 7)] 1 initState = some s1 ∧
      posttask 0 5 [(0, 7)] 8 2 s1 = some s2 ∧
      posttask 0 6 [(0, 7)] 9 3 s2 = some s3 ∧
      dictGet s3.pending 0 = some [0, 7, 1, 2, 8, 3, 9] ∧
      ([0, 7, 1, 2, 8, 3, 9] : List Nat).length = 7 ∧
      (finish [(0, 7)] false s3).results.filter (fun r => r.head? == some 0)
        = initState.results.filter (fun r => r.head? == some 0) :=
  ⟨⟨fun p hp => absurd hp (List.not_mem_nil p), List.nodup_nil⟩, rfl,
    C10_double_finish_drops_key 0 7 5 6 8 9 1 2 3 false [(0, 7)] initState
      ⟨fun p hp => absurd hp (List.not_mem_nil p), List.nodup_nil⟩ rfl⟩

end DaskProfile
